import Mathlib

/-!
Shallow embedding of the core pipeline of the tile-matching assistant (script.js):
zonal structural scoring, histogram/size gating, greedy disjoint pairing, and
orthogonal path connectivity, together with theorems checking the design
document claims against this embedding.
-/

set_option maxHeartbeats 1000000

set_option allowUnsafeReducibility true

attribute [semireducible] Rat.sub Rat.add Rat.mul Rat.inv Rat.div Rat.neg

namespace TileMatch

/-- RGBA pixel with 8-bit channels, modelling an OpenCV CV_8UC4 pixel. -/
abbrev Pixel := ℕ × ℕ × ℕ × ℕ

/-- Image matrix: dimensions plus a pixel lookup function (a cv.Mat). -/
structure Mat where
  cols : ℕ
  rows : ℕ
  px : ℕ → ℕ → Pixel

/-- Region-of-interest view of a matrix anchored at (x0, y0), as produced by
mat.roi(rect) in OpenCV. -/
def Mat.roiAt (m : Mat) (x0 y0 w h : ℕ) : Mat :=
  ⟨w, h, fun x y => m.px (x0 + x) (y0 + y)⟩

/-- Per-channel absolute difference of two pixels (cv.absdiff). -/
def absdiffPx (p q : Pixel) : Pixel :=
  (max p.1 q.1 - min p.1 q.1,
   max p.2.1 q.2.1 - min p.2.1 q.2.1,
   max p.2.2.1 q.2.2.1 - min p.2.2.1 q.2.2.1,
   max p.2.2.2 q.2.2.2 - min p.2.2.2 q.2.2.2)

/-- Grayscale collapse of an RGBA pixel, following the OpenCV cvtColor RGBA2GRAY
fixed-point arithmetic: (4899 R + 9617 G + 1868 B + 8192) divided by 2^14. -/
def grayPx (p : Pixel) : ℕ :=
  (4899 * p.1 + 9617 * p.2.1 + 1868 * p.2.2.1 + 8192) / 16384

/-- Decides whether the grayscale absolute difference at a pixel position exceeds the
fixed intensity threshold 50; cv.threshold with THRESH_BINARY at 50 marks exactly
these pixels, and cv.countNonZero counts them. -/
def diffHot (m1 m2 : Mat) (x y : ℕ) : Bool :=
  decide (50 < grayPx (absdiffPx (m1.px x y) (m2.px x y)))

/-- Structural difference score from getDifficultyScore: the number of pixels whose
grayscale absolute difference exceeds 50 (absdiff, then RGBA2GRAY, then threshold
at 50, then countNonZero). -/
def getDifficultyScore (m1 m2 : Mat) : ℕ :=
  ((List.range m1.rows).map fun y =>
    ((List.range m1.cols).filter fun x => diffHot m1 m2 x y).length).sum

/-- Zonal structural score from getZonalScore: fold over the four quadrant
rectangles (top-left, top-right, bottom-left, bottom-right at half the
dimensions), keeping the running maximum of the per-quadrant difficulty score
(maxDiff is replaced whenever diff > maxDiff). -/
def getZonalScore (m1 m2 : Mat) : ℕ :=
  let w := m1.cols
  let h := m1.rows
  let hw := w / 2
  let hh := h / 2
  let rects : List (ℕ × ℕ) := [(0, 0), (hw, 0), (0, hh), (hw, hh)]
  rects.foldl
    (fun maxDiff r =>
      let d := getDifficultyScore (m1.roiAt r.1 r.2 hw hh) (m2.roiAt r.1 r.2 hw hh)
      if maxDiff < d then d else maxDiff)
    0

/-- Quadrant pixel-difference magnitude, written from the specification text: the
count of pixels in the half-width by half-height quadrant anchored at (qx, qy)
whose per-channel absolute difference, collapsed to a single intensity channel,
exceeds the fixed threshold 50. -/
def quadrantMagnitude (m1 m2 : Mat) (qx qy : ℕ) : ℕ :=
  ((List.range (m1.rows / 2)).map fun dy =>
    ((List.range (m1.cols / 2)).filter fun dx =>
      decide (50 < grayPx (absdiffPx (m1.px (qx + dx) (qy + dy))
        (m2.px (qx + dx) (qy + dy))))).length).sum

/-- All-black 32 by 32 RGBA patch. -/
def blackMat : Mat := ⟨32, 32, fun _ _ => (0, 0, 0, 255)⟩

/-- All-white 32 by 32 RGBA patch. -/
def whiteMat : Mat := ⟨32, 32, fun _ _ => (255, 255, 255, 255)⟩

/-- Patch that is white on its top half and black on its bottom half. -/
def topHalfMat : Mat := ⟨32, 32, fun _ y => if y < 16 then (255, 255, 255, 255) else (0, 0, 0, 255)⟩

theorem getDifficultyScore_roiAt (m1 m2 : Mat) (qx qy : ℕ) :
    getDifficultyScore (m1.roiAt qx qy (m1.cols / 2) (m1.rows / 2))
      (m2.roiAt qx qy (m1.cols / 2) (m1.rows / 2)) = quadrantMagnitude m1 m2 qx qy := rfl

theorem ite_lt_eq_max (a b : ℕ) : (if a < b then b else a) = max a b := by
  rcases Nat.lt_or_ge a b with h | h
  · simp [h, Nat.max_eq_right (Nat.le_of_lt h)]
  · simp [Nat.not_lt.mpr h, Nat.max_eq_left h]

theorem getZonalScore_eq_max (m1 m2 : Mat) :
    getZonalScore m1 m2 =
      max (max (quadrantMagnitude m1 m2 0 0) (quadrantMagnitude m1 m2 (m1.cols / 2) 0))
        (max (quadrantMagnitude m1 m2 0 (m1.rows / 2))
          (quadrantMagnitude m1 m2 (m1.cols / 2) (m1.rows / 2))) := by
  unfold getZonalScore
  simp only [List.foldl_cons, List.foldl_nil, getDifficultyScore_roiAt, ite_lt_eq_max]
  omega

theorem getDifficultyScore_le (m1 m2 : Mat) :
    getDifficultyScore m1 m2 ≤ m1.rows * m1.cols := by
  unfold getDifficultyScore
  have h := List.sum_le_card_nsmul
    ((List.range m1.rows).map fun y =>
      ((List.range m1.cols).filter fun x => diffHot m1 m2 x y).length)
    m1.cols ?_
  · simpa using h
  · intro x hx
    simp only [List.mem_map] at hx
    obtain ⟨y, _, rfl⟩ := hx
    simpa using List.length_filter_le (fun x => diffHot m1 m2 x y) (List.range m1.cols)

theorem quadrantMagnitude_le (m1 m2 : Mat) (qx qy : ℕ) :
    quadrantMagnitude m1 m2 qx qy ≤ (m1.rows / 2) * (m1.cols / 2) := by
  rw [← getDifficultyScore_roiAt]
  exact getDifficultyScore_le _ _

theorem getZonalScore_le (m1 m2 : Mat) :
    getZonalScore m1 m2 ≤ (m1.rows / 2) * (m1.cols / 2) := by
  rw [getZonalScore_eq_max]
  have h1 := quadrantMagnitude_le m1 m2 0 0
  have h2 := quadrantMagnitude_le m1 m2 (m1.cols / 2) 0
  have h3 := quadrantMagnitude_le m1 m2 0 (m1.rows / 2)
  have h4 := quadrantMagnitude_le m1 m2 (m1.cols / 2) (m1.rows / 2)
  omega

/-- C2: contrary to the claim, the zonal structural gate can never reject a pair of
32 by 32 patches: each quadrant holds 16 by 16 = 256 pixels, so getZonalScore is at
most 256 and the gate zonalDiff < 1200 always passes — even for the maximally
different all-black versus all-white patches, whose score is exactly 256. The code
contradicts its own comment that zonal scores range over roughly 0 to 4000. -/
theorem zonal_gate_never_rejects :
    (∀ m1 m2 : Mat, m1.cols = 32 → m1.rows = 32 → getZonalScore m1 m2 < 1200) ∧
    getZonalScore blackMat whiteMat = 256 := by
  constructor
  · intro m1 m2 hc hr
    have h := getZonalScore_le m1 m2
    rw [hc, hr] at h
    omega
  · rfl

/-- Witness for the zonal gate theorem at the maximally different pair of patches. -/
theorem zonal_gate_never_rejects_witness :
    getZonalScore blackMat whiteMat < 1200 :=
  zonal_gate_never_rejects.1 blackMat whiteMat rfl rfl

/-- C9: the zonal structural score is the maximum — not the average or the sum — over
the four quadrants of the per-quadrant count of pixels whose collapsed absolute
difference exceeds the fixed threshold 50; on a concrete pair differing in exactly
two quadrants the score is 256 while the quadrant sum is 512 (and the average 128),
separating the three readings. -/
theorem zonal_score_is_quadrant_max :
    (∀ m1 m2 : Mat,
        getZonalScore m1 m2 =
          max (max (quadrantMagnitude m1 m2 0 0) (quadrantMagnitude m1 m2 (m1.cols / 2) 0))
            (max (quadrantMagnitude m1 m2 0 (m1.rows / 2))
              (quadrantMagnitude m1 m2 (m1.cols / 2) (m1.rows / 2)))) ∧
    getZonalScore blackMat topHalfMat = 256 ∧
    quadrantMagnitude blackMat topHalfMat 0 0 + quadrantMagnitude blackMat topHalfMat 16 0 +
        quadrantMagnitude blackMat topHalfMat 0 16 +
        quadrantMagnitude blackMat topHalfMat 16 16 = 512 := by
  refine ⟨getZonalScore_eq_max, ?_, ?_⟩ <;> rfl

/-- Axis-aligned rectangle in image pixel coordinates, as produced by
cv.boundingRect. Fields are rationals because JavaScript arithmetic freely mixes
them with fractional centers and offsets. -/
structure Rect where
  x : ℚ
  y : ℚ
  width : ℚ
  height : ℚ
deriving DecidableEq

/-- Path thickness constant from checkPathConnectivity (const pathWidth = 5). -/
def pathWidth : ℚ := 5

/-- Math.min on rationals, written as an if-then-else so that closed terms reduce
inside the kernel. -/
def jsMin (a b : ℚ) : ℚ := if a ≤ b then a else b

/-- Math.max on rationals, written as an if-then-else so that closed terms reduce
inside the kernel. -/
def jsMax (a b : ℚ) : ℚ := if a ≤ b then b else a

/-- Math.abs on rationals, written as an if-then-else so that closed terms reduce
inside the kernel. -/
def jsAbs (a : ℚ) : ℚ := if a < 0 then -a else a

theorem jsMin_eq (a b : ℚ) : jsMin a b = min a b := by
  simp [jsMin, min_def]

theorem jsMax_eq (a b : ℚ) : jsMax a b = max a b := by
  simp [jsMax, max_def]

theorem jsAbs_eq (a : ℚ) : jsAbs a = |a| := by
  rw [jsAbs]
  split
  · exact (abs_of_neg (by assumption)).symm
  · exact (abs_of_nonneg (not_lt.mp (by assumption))).symm

/-- Loop body of isHClear deciding that obstacle r blocks the horizontal segment at
height y spanning minX..maxX: the continue guard fails and the horizontal overlap
test passes. -/
def hBlocked (y minX maxX : ℚ) (r : Rect) : Bool :=
  !(decide (y + pathWidth / 2 < r.y) || decide (y - pathWidth / 2 > r.y + r.height)) &&
    (decide (maxX > r.x) && decide (minX < r.x + r.width))

/-- Translation of isHClear from checkPathConnectivity. -/
def isHClear (obstacles : List Rect) (y x1 x2 : ℚ) : Bool :=
  obstacles.all fun r => !hBlocked y (jsMin x1 x2) (jsMax x1 x2) r

/-- Loop body of isVClear deciding that obstacle r blocks the vertical segment at
abscissa x spanning minY..maxY. -/
def vBlocked (x minY maxY : ℚ) (r : Rect) : Bool :=
  !(decide (x + pathWidth / 2 < r.x) || decide (x - pathWidth / 2 > r.x + r.width)) &&
    (decide (maxY > r.y) && decide (minY < r.y + r.height))

/-- Translation of isVClear from checkPathConnectivity. -/
def isVClear (obstacles : List Rect) (x y1 y2 : ℚ) : Bool :=
  obstacles.all fun r => !vBlocked x (jsMin y1 y2) (jsMax y1 y2) r

/-- Vertical-bridge abscissa candidates from checkPathConnectivity: screen
boundaries pushed out by the path width, both tile centers, and the left/right edge of each obstacle pushed out by twice the path width. -/
def xCandidates (w : ℚ) (cA cB : ℚ × ℚ) (obstacles : List Rect) : List ℚ :=
  [0 - pathWidth, w + pathWidth, cA.1, cB.1] ++
    obstacles.flatMap fun t => [t.x - pathWidth * 2, t.x + t.width + pathWidth * 2]

/-- Horizontal-bridge ordinate candidates from checkPathConnectivity. -/
def yCandidates (h : ℚ) (cA cB : ℚ × ℚ) (obstacles : List Rect) : List ℚ :=
  [0 - pathWidth, h + pathWidth, cA.2, cB.2] ++
    obstacles.flatMap fun t => [t.y - pathWidth * 2, t.y + t.height + pathWidth * 2]

/-- Translation of checkPathConnectivity: zero-turn, one-turn, then two-turn
bridge paths, short-circuiting on the first success. The screen size is (w, h)
and cA, cB are the two tile centers; obstacles is the set of all other tiles. -/
def checkPathConnectivity (w h : ℚ) (cA cB : ℚ × ℚ) (obstacles : List Rect) : Bool :=
  (decide (jsAbs (cA.1 - cB.1) < pathWidth) && isVClear obstacles cA.1 cA.2 cB.2) ||
  (decide (jsAbs (cA.2 - cB.2) < pathWidth) && isHClear obstacles cA.2 cA.1 cB.1) ||
  (isHClear obstacles cA.2 cA.1 cB.1 && isVClear obstacles cB.1 cA.2 cB.2) ||
  (isVClear obstacles cA.1 cA.2 cB.2 && isHClear obstacles cB.2 cA.1 cB.1) ||
  ((xCandidates w cA cB obstacles).any fun x =>
    isHClear obstacles cA.2 cA.1 x && isVClear obstacles x cA.2 cB.2 &&
      isHClear obstacles cB.2 x cB.1) ||
  ((yCandidates h cA cB obstacles).any fun y =>
    isVClear obstacles cA.1 cA.2 y && isHClear obstacles y cA.1 cB.1 &&
      isVClear obstacles cB.1 y cB.2)

/-- Signed overlap width, along the x axis, between obstacle r and the band of a
horizontal segment spanning x1..x2 (the band is not inflated along the own axis of the segment). -/
def hOverlapX (x1 x2 : ℚ) (r : Rect) : ℚ :=
  jsMin (jsMax x1 x2) (r.x + r.width) - jsMax (jsMin x1 x2) r.x

/-- Signed overlap width, along the y axis, between obstacle r and the thickness
band of a horizontal segment at height y (the segment inflated by half the path
width on each side). -/
def hOverlapY (y : ℚ) (r : Rect) : ℚ :=
  jsMin (y + pathWidth / 2) (r.y + r.height) - jsMax (y - pathWidth / 2) r.y

/-- Signed overlap width, along the x axis, between obstacle r and the thickness
band of a vertical segment at abscissa x. -/
def vOverlapX (x : ℚ) (r : Rect) : ℚ :=
  jsMin (x + pathWidth / 2) (r.x + r.width) - jsMax (x - pathWidth / 2) r.x

/-- Signed overlap width, along the y axis, between obstacle r and the band of a
vertical segment spanning y1..y2. -/
def vOverlapY (y1 y2 : ℚ) (r : Rect) : ℚ :=
  jsMin (jsMax y1 y2) (r.y + r.height) - jsMax (jsMin y1 y2) r.y

theorem hBlocked_eq_true_iff (y minX maxX : ℚ) (r : Rect) :
    hBlocked y minX maxX r = true ↔
      r.y ≤ y + pathWidth / 2 ∧ y - pathWidth / 2 ≤ r.y + r.height ∧
        r.x < maxX ∧ minX < r.x + r.width := by
  simp [hBlocked, not_or, not_lt, and_assoc]

theorem vBlocked_eq_true_iff (x minY maxY : ℚ) (r : Rect) :
    vBlocked x minY maxY r = true ↔
      r.x ≤ x + pathWidth / 2 ∧ x - pathWidth / 2 ≤ r.x + r.width ∧
        r.y < maxY ∧ minY < r.y + r.height := by
  simp [vBlocked, not_or, not_lt, and_assoc]

/-- Obstacle whose top edge exactly touches the inflated band of the horizontal
segment at height 21/2 (band from 8 to 13, obstacle starting at y = 13). -/
def touchRect : Rect := ⟨20, 13, 40, 20⟩

/-- C1 counterexample: an obstacle whose overlap with the inflated segment band is
exactly zero on the thickness axis still blocks the segment, because the skip test of the code uses a strict inequality; so exact edge-touching on that axis is
blocking, contrary to the claim. -/
theorem edgeTouch_blocks_band :
    hOverlapY (21 / 2) touchRect = 0 ∧ isHClear [touchRect] (21 / 2) 0 100 = false := by
  decide

theorem hBlocked_false_of_nonoverlap (y x1 x2 : ℚ) (r : Rect)
    (hwpos : 0 < r.width) (hhpos : 0 < r.height) (hne : x1 ≠ x2)
    (hov : hOverlapX x1 x2 r ≤ 0 ∨ hOverlapY y r < 0) :
    hBlocked y (jsMin x1 x2) (jsMax x1 x2) r = false := by
  rw [Bool.eq_false_iff]
  intro hb
  rw [jsMin_eq, jsMax_eq] at hb
  obtain ⟨h1, h2, h3, h4⟩ := (hBlocked_eq_true_iff _ _ _ _).mp hb
  simp only [hOverlapX, hOverlapY, jsMin_eq, jsMax_eq] at hov
  rcases hov with hx | hy
  · have hlt : max (min x1 x2) r.x < min (max x1 x2) (r.x + r.width) := by
      refine max_lt (lt_min (min_lt_max.mpr hne) h4) (lt_min h3 ?_)
      linarith
    linarith
  · have hge : max (y - pathWidth / 2) r.y ≤ min (y + pathWidth / 2) (r.y + r.height) := by
      have hpw : (0 : ℚ) < pathWidth := by norm_num [pathWidth]
      exact max_le (le_min (by linarith) h2) (le_min h1 (by linarith))
    linarith

theorem vBlocked_false_of_nonoverlap (x y1 y2 : ℚ) (r : Rect)
    (hwpos : 0 < r.width) (hhpos : 0 < r.height) (hne : y1 ≠ y2)
    (hov : vOverlapY y1 y2 r ≤ 0 ∨ vOverlapX x r < 0) :
    vBlocked x (jsMin y1 y2) (jsMax y1 y2) r = false := by
  rw [Bool.eq_false_iff]
  intro hb
  rw [jsMin_eq, jsMax_eq] at hb
  obtain ⟨h1, h2, h3, h4⟩ := (vBlocked_eq_true_iff _ _ _ _).mp hb
  simp only [vOverlapX, vOverlapY, jsMin_eq, jsMax_eq] at hov
  rcases hov with hy | hx
  · have hlt : max (min y1 y2) r.y < min (max y1 y2) (r.y + r.height) := by
      refine max_lt (lt_min (min_lt_max.mpr hne) h4) (lt_min h3 ?_)
      linarith
    linarith
  · have hge : max (x - pathWidth / 2) r.x ≤ min (x + pathWidth / 2) (r.x + r.width) := by
      have hpw : (0 : ℚ) < pathWidth := by norm_num [pathWidth]
      exact max_le (le_min (by linarith) h2) (le_min h1 (by linarith))
    linarith

/-- C1 amended: for obstacles with positive extent and a non-degenerate segment,
zero-or-negative overlap on the own axis of the segment, or strictly negative overlap
on the thickness axis, never blocks; only the thickness axis treats exact
edge-touching (zero-width overlap) as blocking. -/
theorem clear_of_nonoverlap :
    (∀ (obstacles : List Rect) (y x1 x2 : ℚ),
        (∀ r ∈ obstacles, 0 < r.width ∧ 0 < r.height) → x1 ≠ x2 →
        (∀ r ∈ obstacles, hOverlapX x1 x2 r ≤ 0 ∨ hOverlapY y r < 0) →
        isHClear obstacles y x1 x2 = true) ∧
    (∀ (obstacles : List Rect) (x y1 y2 : ℚ),
        (∀ r ∈ obstacles, 0 < r.width ∧ 0 < r.height) → y1 ≠ y2 →
        (∀ r ∈ obstacles, vOverlapY y1 y2 r ≤ 0 ∨ vOverlapX x r < 0) →
        isVClear obstacles x y1 y2 = true) := by
  constructor
  · intro obstacles y x1 x2 hpos hne hov
    simp only [isHClear, List.all_eq_true]
    intro r hr
    have := hBlocked_false_of_nonoverlap y x1 x2 r (hpos r hr).1 (hpos r hr).2 hne (hov r hr)
    simp [this]
  · intro obstacles x y1 y2 hpos hne hov
    simp only [isVClear, List.all_eq_true]
    intro r hr
    have := vBlocked_false_of_nonoverlap x y1 y2 r (hpos r hr).1 (hpos r hr).2 hne (hov r hr)
    simp [this]

/-- Obstacle strictly below the band of the horizontal segment used in the
witness for the amended boundary claim. -/
def clearRect : Rect := ⟨20, 50, 40, 20⟩

/-- Witness: a concrete obstacle with strictly negative thickness-axis overlap is
reported clear. -/
theorem clear_of_nonoverlap_witness : isHClear [clearRect] 10 0 100 = true :=
  clear_of_nonoverlap.1 [clearRect] 10 0 100 (by decide) (by norm_num) (by decide)

/-- Axis-aligned path segment: a horizontal segment at height y spanning x1..x2,
or a vertical segment at abscissa x spanning y1..y2. -/
inductive Seg where
  | horiz (y x1 x2 : ℚ)
  | vert (x y1 y2 : ℚ)

/-- Strict positive-area overlap between an obstacle rectangle and a segment
inflated by the path thickness into a band centered on its line, written from the
description in the specification of the inflated-segment test. -/
def segStrictOverlap (s : Seg) (r : Rect) : Prop :=
  match s with
  | .horiz y x1 x2 =>
      max (min x1 x2) r.x < min (max x1 x2) (r.x + r.width) ∧
      max (y - pathWidth / 2) r.y < min (y + pathWidth / 2) (r.y + r.height)
  | .vert x y1 y2 =>
      max (x - pathWidth / 2) r.x < min (x + pathWidth / 2) (r.x + r.width) ∧
      max (min y1 y2) r.y < min (max y1 y2) (r.y + r.height)

/-- Paths whose segments checkPathConnectivity actually tests before answering
true: the single zero-turn segment, the two one-turn corners, and the three-segment
bridges through a generated candidate coordinate. -/
inductive AcceptedPath (w h : ℚ) (cA cB : ℚ × ℚ) (obstacles : List Rect) : List Seg → Prop
  | zeroTurnV : jsAbs (cA.1 - cB.1) < pathWidth →
      AcceptedPath w h cA cB obstacles [.vert cA.1 cA.2 cB.2]
  | zeroTurnH : jsAbs (cA.2 - cB.2) < pathWidth →
      AcceptedPath w h cA cB obstacles [.horiz cA.2 cA.1 cB.1]
  | oneTurnA : AcceptedPath w h cA cB obstacles [.horiz cA.2 cA.1 cB.1, .vert cB.1 cA.2 cB.2]
  | oneTurnB : AcceptedPath w h cA cB obstacles [.vert cA.1 cA.2 cB.2, .horiz cB.2 cA.1 cB.1]
  | bridgeV (x : ℚ) : x ∈ xCandidates w cA cB obstacles →
      AcceptedPath w h cA cB obstacles
        [.horiz cA.2 cA.1 x, .vert x cA.2 cB.2, .horiz cB.2 x cB.1]
  | bridgeH (y : ℚ) : y ∈ yCandidates h cA cB obstacles →
      AcceptedPath w h cA cB obstacles
        [.vert cA.1 cA.2 y, .horiz y cA.1 cB.1, .vert cB.1 y cB.2]

theorem isHClear_no_overlap (obstacles : List Rect) (y x1 x2 : ℚ)
    (h : isHClear obstacles y x1 x2 = true) :
    ∀ r ∈ obstacles, ¬ segStrictOverlap (.horiz y x1 x2) r := by
  intro r hr hov
  obtain ⟨hx, hy⟩ := hov
  have hb := List.all_eq_true.mp h r hr
  rw [Bool.not_eq_eq_eq_not, Bool.not_true] at hb
  rw [jsMin_eq, jsMax_eq] at hb
  apply absurd hb
  simp only [ne_eq, Bool.not_eq_false]
  rw [hBlocked_eq_true_iff]
  have hr1 : r.y ≤ y + pathWidth / 2 := le_of_lt (lt_of_le_of_lt (le_max_right _ r.y)
    (lt_of_lt_of_le hy (min_le_left _ _)))
  have hr2 : y - pathWidth / 2 ≤ r.y + r.height := le_of_lt (lt_of_le_of_lt
    (le_max_left _ r.y) (lt_of_lt_of_le hy (min_le_right _ _)))
  have hr3 : r.x < max x1 x2 := lt_of_le_of_lt (le_max_right _ r.x)
    (lt_of_lt_of_le hx (min_le_left _ _))
  have hr4 : min x1 x2 < r.x + r.width := lt_of_le_of_lt (le_max_left _ r.x)
    (lt_of_lt_of_le hx (min_le_right _ _))
  exact ⟨hr1, hr2, hr3, hr4⟩

theorem isVClear_no_overlap (obstacles : List Rect) (x y1 y2 : ℚ)
    (h : isVClear obstacles x y1 y2 = true) :
    ∀ r ∈ obstacles, ¬ segStrictOverlap (.vert x y1 y2) r := by
  intro r hr hov
  obtain ⟨hx, hy⟩ := hov
  have hb := List.all_eq_true.mp h r hr
  rw [Bool.not_eq_eq_eq_not, Bool.not_true] at hb
  rw [jsMin_eq, jsMax_eq] at hb
  apply absurd hb
  simp only [ne_eq, Bool.not_eq_false]
  rw [vBlocked_eq_true_iff]
  have hr1 : r.x ≤ x + pathWidth / 2 := le_of_lt (lt_of_le_of_lt (le_max_right _ r.x)
    (lt_of_lt_of_le hx (min_le_left _ _)))
  have hr2 : x - pathWidth / 2 ≤ r.x + r.width := le_of_lt (lt_of_le_of_lt
    (le_max_left _ r.x) (lt_of_lt_of_le hx (min_le_right _ _)))
  have hr3 : r.y < max y1 y2 := lt_of_le_of_lt (le_max_right _ r.y)
    (lt_of_lt_of_le hy (min_le_left _ _))
  have hr4 : min y1 y2 < r.y + r.height := lt_of_le_of_lt (le_max_left _ r.y)
    (lt_of_lt_of_le hy (min_le_right _ _))
  exact ⟨hr1, hr2, hr3, hr4⟩

/-- C5: connectivity soundness — whenever checkPathConnectivity answers true, one of
the tested paths (at most three axis-aligned segments through the tested corner or
bridge coordinates) has every segment clear: no obstacle rectangle strictly
overlaps any segment inflated to the path-thickness band. -/
theorem connectivity_sound (w h : ℚ) (cA cB : ℚ × ℚ) (obstacles : List Rect)
    (hc : checkPathConnectivity w h cA cB obstacles = true) :
    ∃ segs : List Seg, AcceptedPath w h cA cB obstacles segs ∧ segs.length ≤ 3 ∧
      ∀ s ∈ segs, ∀ r ∈ obstacles, ¬ segStrictOverlap s r := by
  unfold checkPathConnectivity at hc
  simp only [Bool.or_eq_true, Bool.and_eq_true, decide_eq_true_eq, List.any_eq_true] at hc
  rcases hc with ((((⟨h1, h2⟩ | ⟨h1, h2⟩) | ⟨h1, h2⟩) | ⟨h1, h2⟩) |
    ⟨x, hx, ⟨h1, h2⟩, h3⟩) | ⟨y, hy, ⟨h1, h2⟩, h3⟩
  · refine ⟨_, AcceptedPath.zeroTurnV h1, by simp, ?_⟩
    intro s hs
    simp only [List.mem_singleton] at hs
    subst hs
    exact isVClear_no_overlap obstacles _ _ _ h2
  · refine ⟨_, AcceptedPath.zeroTurnH h1, by simp, ?_⟩
    intro s hs
    simp only [List.mem_singleton] at hs
    subst hs
    exact isHClear_no_overlap obstacles _ _ _ h2
  · refine ⟨_, AcceptedPath.oneTurnA, by simp, ?_⟩
    intro s hs
    simp only [List.mem_cons, List.not_mem_nil, or_false] at hs
    rcases hs with hs | hs <;> subst hs
    · exact isHClear_no_overlap obstacles _ _ _ h1
    · exact isVClear_no_overlap obstacles _ _ _ h2
  · refine ⟨_, AcceptedPath.oneTurnB, by simp, ?_⟩
    intro s hs
    simp only [List.mem_cons, List.not_mem_nil, or_false] at hs
    rcases hs with hs | hs <;> subst hs
    · exact isVClear_no_overlap obstacles _ _ _ h1
    · exact isHClear_no_overlap obstacles _ _ _ h2
  · refine ⟨_, AcceptedPath.bridgeV x hx, by simp, ?_⟩
    intro s hs
    simp only [List.mem_cons, List.not_mem_nil, or_false] at hs
    rcases hs with hs | hs | hs <;> subst hs
    · exact isHClear_no_overlap obstacles _ _ _ h1
    · exact isVClear_no_overlap obstacles _ _ _ h2
    · exact isHClear_no_overlap obstacles _ _ _ h3
  · refine ⟨_, AcceptedPath.bridgeH y hy, by simp, ?_⟩
    intro s hs
    simp only [List.mem_cons, List.not_mem_nil, or_false] at hs
    rcases hs with hs | hs | hs <;> subst hs
    · exact isVClear_no_overlap obstacles _ _ _ h1
    · exact isHClear_no_overlap obstacles _ _ _ h2
    · exact isVClear_no_overlap obstacles _ _ _ h3

/-- Witness: a concrete accepted connection (two centers on one clear row) yields a
clear path through the soundness theorem. -/
theorem connectivity_sound_witness :
    ∃ segs : List Seg, AcceptedPath 640 480 (50, 50) (200, 50) [] segs ∧ segs.length ≤ 3 ∧
      ∀ s ∈ segs, ∀ r ∈ ([] : List Rect), ¬ segStrictOverlap s r :=
  connectivity_sound 640 480 (50, 50) (200, 50) [] (by decide)

/-- Obstacle used for the bridge-candidate counterexample. -/
def obstRect : Rect := ⟨100, 0, 20, 20⟩

/-- C6 counterexample: for a concrete obstacle the claimed bridge coordinate
obstacle.x minus the path thickness (95) is not in the candidate list of the code, which
instead contains obstacle.x minus twice the path thickness (90); likewise the claimed
screen boundary 0 is absent, the code using 0 minus the path thickness. -/
theorem bridge_offset_mismatch :
    ((95 : ℚ) ∉ xCandidates 640 (50, 50) (200, 60) [obstRect]) ∧
      (90 : ℚ) ∈ xCandidates 640 (50, 50) (200, 60) [obstRect] ∧
      ((0 : ℚ) ∉ xCandidates 640 (50, 50) (200, 60) [obstRect]) := by
  decide

/-- C6 amended: the bridge candidate set consists of the screen boundaries pushed
outward by the path thickness, the two tile center coordinates, and, for every
obstacle, its near and far edges offset outward by exactly twice the path
thickness. -/
theorem bridge_candidates_characterization :
    (∀ (w : ℚ) (cA cB : ℚ × ℚ) (obstacles : List Rect) (v : ℚ),
        v ∈ xCandidates w cA cB obstacles ↔
          v = 0 - pathWidth ∨ v = w + pathWidth ∨ v = cA.1 ∨ v = cB.1 ∨
            ∃ t ∈ obstacles,
              v = t.x - pathWidth * 2 ∨ v = t.x + t.width + pathWidth * 2) ∧
    (∀ (h : ℚ) (cA cB : ℚ × ℚ) (obstacles : List Rect) (v : ℚ),
        v ∈ yCandidates h cA cB obstacles ↔
          v = 0 - pathWidth ∨ v = h + pathWidth ∨ v = cA.2 ∨ v = cB.2 ∨
            ∃ t ∈ obstacles,
              v = t.y - pathWidth * 2 ∨ v = t.y + t.height + pathWidth * 2) := by
  constructor <;> intro d cA cB obstacles v <;>
    simp [xCandidates, yCandidates, List.mem_flatMap]

/-- Witness: the characterization applied to the concrete obstacle recovers the
bridge coordinate ninety. -/
theorem bridge_candidates_characterization_witness :
    (90 : ℚ) ∈ xCandidates 640 (50, 50) (200, 60) [obstRect] :=
  (bridge_candidates_characterization.1 640 (50, 50) (200, 60) [obstRect] 90).mpr
    (Or.inr (Or.inr (Or.inr (Or.inr ⟨obstRect, by simp, Or.inl (by norm_num [obstRect, pathWidth])⟩))))

/-- Detected tile region with its extracted descriptor data: scan id, bounding
rectangle, normalized 32 by 32 patch, histogram token (abstract, consumed only
through the external compareHist primitive), and center. -/
structure Roi where
  id : ℕ
  rect : Rect
  mat : Mat
  hist : ℕ
  center : ℚ × ℚ

/-- Relative area difference of two tiles (sizeDiff in processFrame). -/
def sizeDiff (a b : Roi) : ℚ :=
  jsAbs (a.rect.width * a.rect.height - b.rect.width * b.rect.height) /
    jsMax (a.rect.width * a.rect.height) (b.rect.width * b.rect.height)

/-- Triple acceptance gate of processFrame v1.7.1: zonal structural difference
below 1200, histogram correlation above 0.90, relative size difference below
0.15. -/
def gatePass (compareHist : ℕ → ℕ → ℚ) (a b : Roi) : Bool :=
  decide (getZonalScore a.mat b.mat < 1200) &&
    decide (compareHist a.hist b.hist > 9 / 10) &&
    decide (sizeDiff a b < 3 / 20)

/-- Composite similarity score of processFrame (lower is better):
zonalDiff + (1 - histScore) * 5000. -/
def totalScore (compareHist : ℕ → ℕ → ℚ) (a b : Roi) : ℚ :=
  (getZonalScore a.mat b.mat : ℚ) + (1 - compareHist a.hist b.hist) * 5000

/-- Gated candidate list for anchor tile a over the positions after it, mirroring
the inner j loop of processFrame: skip visited positions, keep gated partners with
their composite score. -/
def candidatesFor (compareHist : ℕ → ℕ → ℚ) (a : Roi) (rest : List (ℕ × Roi))
    (visited : Finset ℕ) : List ((ℕ × Roi) × ℚ) :=
  rest.filterMap fun jb =>
    if jb.1 ∈ visited then none
    else if gatePass compareHist a jb.2 then some (jb, totalScore compareHist a jb.2)
    else none

/-- Ascending sort of the candidates by composite score (candidates.sort in
processFrame), modelled by a stable insertion sort as Array.sort of JavaScript is
stable. -/
def sortCandidates (cands : List ((ℕ × Roi) × ℚ)) : List ((ℕ × Roi) × ℚ) :=
  List.insertionSort (fun p q => p.2 ≤ q.2) cands

/-- Obstacle set for the connectivity test: every tile rectangle except the two
tiles under consideration (the identity filter at the top of
checkPathConnectivity, expressed by scan position). -/
def obstaclesFor (tiles : List Rect) (i j : ℕ) : List Rect :=
  (tiles.enum.filter fun kt => !(kt.1 == i) && !(kt.1 == j)).map Prod.snd

/-- Connectivity check as invoked from the pairing loop. -/
def connOK (w h : ℚ) (tiles : List Rect) (ia jb : ℕ × Roi) : Bool :=
  checkPathConnectivity w h ia.2.center jb.2.center (obstaclesFor tiles ia.1 jb.1)

/-- Scan for the first connectivity-valid candidate in score order (the
bestMatchIndex loop of processFrame). -/
def findConn (w h : ℚ) (tiles : List Rect) (ia : ℕ × Roi) :
    List ((ℕ × Roi) × ℚ) → Option (ℕ × Roi)
  | [] => none
  | c :: rest => if connOK w h tiles ia c.1 then some c.1 else findConn w h tiles ia rest

/-- Accepted pair record: anchor and partner with their scan positions, plus the
stored score (pairs.push in processFrame stores candidates[0].score). -/
structure PairRec where
  p1 : ℕ × Roi
  p2 : ℕ × Roi
  score : ℚ

/-- Greedy pairing loop of processFrame over the indexed roi list with its visited
set: skip visited anchors, gather and sort candidates, accept the first
connectivity-valid one, mark both visited. -/
def pairAux (w h : ℚ) (compareHist : ℕ → ℕ → ℚ) (tiles : List Rect) :
    List (ℕ × Roi) → Finset ℕ → List PairRec
  | [], _ => []
  | ia :: rest, visited =>
    if ia.1 ∈ visited then pairAux w h compareHist tiles rest visited
    else
      let cands := sortCandidates (candidatesFor compareHist ia.2 rest visited)
      match findConn w h tiles ia cands with
      | none => pairAux w h compareHist tiles rest visited
      | some jb =>
          ⟨ia, jb, (cands.map fun c => c.2).headD 0⟩ ::
            pairAux w h compareHist tiles rest (insert ia.1 (insert jb.1 visited))

/-- Full pairing pass of processFrame over the roi list, starting with an empty
visited set. -/
def processPairs (w h : ℚ) (compareHist : ℕ → ℕ → ℚ) (tiles : List Rect)
    (rois : List Roi) : List PairRec :=
  pairAux w h compareHist tiles rois.enum ∅

/-- Descriptor extraction step of processFrame: each tile gets its scan id, its
rectangle, the externally produced patch and histogram, and the center of the rectangle. -/
def mkRois (matP : Rect → Mat) (histP : Rect → ℕ) (tiles : List Rect) : List Roi :=
  tiles.enum.map fun ir =>
    ⟨ir.1, ir.2, matP ir.2, histP ir.2,
      (ir.2.x + ir.2.width / 2, ir.2.y + ir.2.height / 2)⟩

/-- Row-bucket sort of the filtered tiles. The JavaScript comparator is not a
consistent order, so Array.sort may return any implementation-defined
permutation; the model fixes one reading of the comparator under a stable merge
sort. -/
def gridLe (a b : Rect) : Bool :=
  if jsAbs (a.y - b.y) > a.height * (1 / 2) then decide (a.y ≤ b.y) else decide (a.x ≤ b.x)

/-- Row-bucket sort step (tiles.sort in processFrame), using the comparator
gridLe. -/
def gridSort (tiles : List Rect) : List Rect :=
  List.insertionSort (fun a b => gridLe a b = true) tiles

/-- Final ascending sort of accepted pairs by stored score. -/
def sortPairs (pairs : List PairRec) : List PairRec :=
  List.insertionSort (fun p q => p.score ≤ q.score) pairs

/-- Outcome of one analysis run, after region filtering. -/
inductive FrameOutcome where
  | insufficientDetections (count : ℕ)
  | analyzed (pairs : List PairRec) (displayCount : ℕ)

/-- Pairs carried by an outcome; the insufficient-detections arm carries none. -/
def FrameOutcome.pairsOf : FrameOutcome → List PairRec
  | .insufficientDetections _ => []
  | .analyzed pairs _ => pairs

/-- Core control flow of processFrame after contour filtering: report the count
and stop when fewer than two tiles survive, otherwise sort the tiles, extract
descriptors, run the pairing loop, rank by score and truncate the display list
to five. -/
def processFrameCore (w h : ℚ) (compareHist : ℕ → ℕ → ℚ) (matP : Rect → Mat)
    (histP : Rect → ℕ) (tiles : List Rect) : FrameOutcome :=
  if tiles.length < 2 then .insufficientDetections tiles.length
  else
    let sorted := gridSort tiles
    let rois := mkRois matP histP sorted
    let pairs := sortPairs (processPairs w h compareHist sorted rois)
    .analyzed pairs (min pairs.length 5)

/-- Region filter acceptance test of processFrame: strict area bounds at 0.5 and
10 percent of the frame area, strict aspect-ratio bounds at 0.7 and 1.3. -/
def regionFilterKeep (totalPixels : ℚ) (r : Rect) : Bool :=
  decide (r.width * r.height > totalPixels * (5 / 1000)) &&
    decide (r.width * r.height < totalPixels * (10 / 100)) &&
    decide (r.width / r.height > 7 / 10) &&
    decide (r.width / r.height < 13 / 10)

/-- Region filter pass over the raw detector rectangles. -/
def regionFilter (totalPixels : ℚ) (rects : List Rect) : List Rect :=
  rects.filter (regionFilterKeep totalPixels)

/-- C7: the region filter keeps a rectangle iff its pixel area lies strictly
between 0.5 and 10 percent of the frame area and its aspect ratio lies strictly
between 0.7 and 1.3; in particular a 20 by 20 rectangle in a 1000 by 1000 frame
is rejected. -/
theorem region_filter_contract :
    (∀ (a : ℚ) (r : Rect),
        regionFilterKeep a r = true ↔
          ((5 / 1000) * a < r.width * r.height ∧ r.width * r.height < (10 / 100) * a ∧
            7 / 10 < r.width / r.height ∧ r.width / r.height < 13 / 10)) ∧
    (∀ (a : ℚ) (rects : List Rect) (r : Rect),
        r ∈ regionFilter a rects ↔ r ∈ rects ∧ regionFilterKeep a r = true) ∧
    regionFilterKeep (1000 * 1000) ⟨0, 0, 20, 20⟩ = false := by
  refine ⟨?_, ?_, ?_⟩
  · intro a r
    simp only [regionFilterKeep, Bool.and_eq_true, decide_eq_true_eq, gt_iff_lt, and_assoc]
    rw [mul_comm a (5 / 1000), mul_comm a (10 / 100)]
  · intro a rects r
    simp [regionFilter, List.mem_filter]
  · decide

/-- Witness: the acceptance characterization applied to a rectangle occupying one
percent of a 1000 by 1000 frame with unit aspect ratio. -/
theorem region_filter_contract_witness :
    regionFilterKeep (1000 * 1000) ⟨0, 0, 100, 100⟩ = true :=
  (region_filter_contract.1 (1000 * 1000) ⟨0, 0, 100, 100⟩).mpr
    (by norm_num)

/-- C8: with fewer than two filtered tiles the run ends as the non-fatal
insufficient-detections outcome carrying the tile count, produces no pairs, and
its result does not depend on the descriptor-extraction or comparison
primitives, which are never invoked on this branch; the embedding is a total
function, so no exception is raised. -/
theorem insufficient_detections_outcome (w h : ℚ) (compareHist : ℕ → ℕ → ℚ)
    (matP : Rect → Mat) (histP : Rect → ℕ) (tiles : List Rect)
    (hlt : tiles.length < 2) :
    processFrameCore w h compareHist matP histP tiles =
        .insufficientDetections tiles.length ∧
      (processFrameCore w h compareHist matP histP tiles).pairsOf = [] ∧
      (∀ (ch2 : ℕ → ℕ → ℚ) (matP2 : Rect → Mat) (histP2 : Rect → ℕ),
        processFrameCore w h ch2 matP2 histP2 tiles =
          processFrameCore w h compareHist matP histP tiles) := by
  refine ⟨?_, ?_, ?_⟩
  · simp [processFrameCore, hlt]
  · simp [processFrameCore, hlt, FrameOutcome.pairsOf]
  · intro ch2 matP2 histP2
    simp [processFrameCore, hlt]

/-- Witness: a single filtered tile produces the insufficient-detections outcome
reporting one detection. -/
theorem insufficient_detections_outcome_witness :
    processFrameCore 640 480 (fun _ _ => 1) (fun _ => blackMat) (fun _ => 0)
        [⟨0, 0, 40, 40⟩] = .insufficientDetections 1 :=
  (insufficient_detections_outcome 640 480 (fun _ _ => 1) (fun _ => blackMat)
    (fun _ => 0) [⟨0, 0, 40, 40⟩] (by decide)).1

theorem mem_candidatesFor (compareHist : ℕ → ℕ → ℚ) (a : Roi) (rest : List (ℕ × Roi))
    (visited : Finset ℕ) (c : (ℕ × Roi) × ℚ)
    (hc : c ∈ candidatesFor compareHist a rest visited) :
    c.1 ∈ rest ∧ c.1.1 ∉ visited ∧ c.2 = totalScore compareHist a c.1.2 := by
  simp only [candidatesFor, List.mem_filterMap] at hc
  obtain ⟨jb, hjb, heq⟩ := hc
  by_cases hv : jb.1 ∈ visited
  · simp [hv] at heq
  · by_cases hg : gatePass compareHist a jb.2 = true
    · rw [if_neg hv, if_pos hg] at heq
      cases heq
      exact ⟨hjb, hv, rfl⟩
    · simp [hv, hg] at heq

theorem mem_sortCandidates (cands : List ((ℕ × Roi) × ℚ)) (c : (ℕ × Roi) × ℚ) :
    c ∈ sortCandidates cands ↔ c ∈ cands :=
  (List.perm_insertionSort _ cands).mem_iff

theorem findConn_mem (w h : ℚ) (tiles : List Rect) (ia : ℕ × Roi) :
    ∀ (cands : List ((ℕ × Roi) × ℚ)) (jb : ℕ × Roi),
      findConn w h tiles ia cands = some jb → ∃ s, (jb, s) ∈ cands := by
  intro cands
  induction cands with
  | nil => intro jb hj; simp [findConn] at hj
  | cons c rest ih =>
    intro jb hj
    rw [findConn] at hj
    split at hj
    · obtain rfl := Option.some.inj hj
      exact ⟨c.2, List.mem_cons_self c rest⟩
    · obtain ⟨s, hs⟩ := ih jb hj
      exact ⟨s, List.mem_cons_of_mem _ hs⟩

theorem mem_pairFlat (ps : List PairRec) (x : ℕ) :
    x ∈ ps.flatMap (fun p => [p.p1.1, p.p2.1]) ↔ ∃ p ∈ ps, x = p.p1.1 ∨ x = p.p2.1 := by
  simp [List.mem_flatMap]

theorem pairAux_inv (w h : ℚ) (compareHist : ℕ → ℕ → ℚ) (tiles : List Rect) :
    ∀ (l : List (ℕ × Roi)) (visited : Finset ℕ), (l.map Prod.fst).Nodup →
      (∀ p ∈ pairAux w h compareHist tiles l visited,
          p.p1.1 ∉ visited ∧ p.p2.1 ∉ visited ∧ p.p1.1 ≠ p.p2.1) ∧
      ((pairAux w h compareHist tiles l visited).flatMap fun p => [p.p1.1, p.p2.1]).Nodup := by
  intro l
  induction l with
  | nil =>
    intro visited hnd
    simp [pairAux]
  | cons ia rest ih =>
    intro visited hnd
    rw [List.map_cons, List.nodup_cons] at hnd
    obtain ⟨hia, hrest⟩ := hnd
    by_cases hv : ia.1 ∈ visited
    · simpa [pairAux, hv] using ih visited hrest
    · simp only [pairAux, if_neg hv]
      cases hfc : findConn w h tiles ia
          (sortCandidates (candidatesFor compareHist ia.2 rest visited)) with
      | none => exact ih visited hrest
      | some jb =>
        obtain ⟨s, hsmem⟩ := findConn_mem w h tiles ia _ jb hfc
        obtain ⟨hjbrest, hjbnv, _⟩ := mem_candidatesFor compareHist ia.2 rest visited (jb, s)
          ((mem_sortCandidates _ _).mp hsmem)
        have hne : ia.1 ≠ jb.1 := by
          intro he
          exact hia (he ▸ List.mem_map_of_mem Prod.fst hjbrest)
        have ihx := ih (insert ia.1 (insert jb.1 visited)) hrest
        constructor
        · intro p hp
          rcases List.mem_cons.mp hp with rfl | hp
          · exact ⟨hv, hjbnv, hne⟩
          · obtain ⟨h1, h2, h3⟩ := ihx.1 p hp
            exact ⟨fun hx => h1 (Finset.mem_insert_of_mem (Finset.mem_insert_of_mem hx)),
              fun hx => h2 (Finset.mem_insert_of_mem (Finset.mem_insert_of_mem hx)), h3⟩
        · have hflat : ((⟨ia, jb, (sortCandidates (candidatesFor compareHist ia.2 rest
              visited)).map (fun c => c.2) |>.headD 0⟩ : PairRec) ::
                pairAux w h compareHist tiles rest (insert ia.1 (insert jb.1 visited))).flatMap
                  (fun p => [p.p1.1, p.p2.1]) =
              ia.1 :: jb.1 :: (pairAux w h compareHist tiles rest
                (insert ia.1 (insert jb.1 visited))).flatMap (fun p => [p.p1.1, p.p2.1]) := by
            simp [List.flatMap_cons]
          rw [hflat, List.nodup_cons, List.nodup_cons]
          refine ⟨?_, ?_, ihx.2⟩
          · simp only [List.mem_cons]
            rintro (he | hm)
            · exact hne he
            · obtain ⟨p, hp, hor⟩ := (mem_pairFlat _ _).mp hm
              obtain ⟨h1, h2, _⟩ := ihx.1 p hp
              rcases hor with he | he
              · exact h1 (he ▸ Finset.mem_insert_self ia.1 _)
              · exact h2 (he ▸ Finset.mem_insert_self ia.1 _)
          · intro hm
            obtain ⟨p, hp, hor⟩ := (mem_pairFlat _ _).mp hm
            obtain ⟨h1, h2, _⟩ := ihx.1 p hp
            rcases hor with he | he
            · exact h1 (he ▸ Finset.mem_insert_of_mem (Finset.mem_insert_self jb.1 _))
            · exact h2 (he ▸ Finset.mem_insert_of_mem (Finset.mem_insert_self jb.1 _))

/-- C3: disjointness of the final result — for every input tile list, no tile
position appears in more than one pair of the produced match result; the pairing
loop only ever forms a pair from two unvisited tiles and grows the visited set. -/
theorem matchResult_disjoint (w h : ℚ) (compareHist : ℕ → ℕ → ℚ) (matP : Rect → Mat)
    (histP : Rect → ℕ) (tiles : List Rect) :
    (((processFrameCore w h compareHist matP histP tiles).pairsOf).flatMap
      fun p => [p.p1.1, p.p2.1]).Nodup := by
  unfold processFrameCore
  split
  · simp [FrameOutcome.pairsOf]
  · simp only [FrameOutcome.pairsOf]
    have hperm : (sortPairs (processPairs w h compareHist (gridSort tiles)
        (mkRois matP histP (gridSort tiles)))).Perm
          (processPairs w h compareHist (gridSort tiles)
            (mkRois matP histP (gridSort tiles))) :=
      List.perm_insertionSort _ _
    have hbase : ((processPairs w h compareHist (gridSort tiles)
        (mkRois matP histP (gridSort tiles))).flatMap fun p => [p.p1.1, p.p2.1]).Nodup := by
      have hkeys : ((mkRois matP histP (gridSort tiles)).enum.map Prod.fst).Nodup := by
        rw [List.enum_map_fst]
        exact List.nodup_range _
      exact (pairAux_inv w h compareHist (gridSort tiles)
        (mkRois matP histP (gridSort tiles)).enum ∅ hkeys).2
    exact ((List.Perm.flatMap_right (fun p => [p.p1.1, p.p2.1]) hperm).nodup_iff).mpr hbase

theorem getDifficultyScore_self (m1 : Mat) : getDifficultyScore m1 m1 = 0 := by
  unfold getDifficultyScore
  have hz : ∀ x y, diffHot m1 m1 x y = false := by
    intro x y
    simp [diffHot, absdiffPx, grayPx]
  simp [hz]

theorem getZonalScore_self (m : Mat) : getZonalScore m m = 0 := by
  rw [getZonalScore_eq_max]
  have hq : ∀ qx qy, quadrantMagnitude m m qx qy = 0 := by
    intro qx qy
    rw [← getDifficultyScore_roiAt]
    exact getDifficultyScore_self _
  simp [hq]

theorem sortCandidates_sorted (cands : List ((ℕ × Roi) × ℚ)) :
    List.Pairwise (fun (a b : (ℕ × Roi) × ℚ) => a.2 ≤ b.2) (sortCandidates cands) := by
  unfold sortCandidates
  haveI h1 : IsTotal ((ℕ × Roi) × ℚ) (fun a b => a.2 ≤ b.2) := ⟨fun a b => le_total a.2 b.2⟩
  haveI h2 : IsTrans ((ℕ × Roi) × ℚ) (fun a b => a.2 ≤ b.2) :=
    ⟨fun a b c hab hbc => le_trans hab hbc⟩
  exact List.sorted_insertionSort _ cands

theorem sortCandidates_headD_le (cands : List ((ℕ × Roi) × ℚ)) (c : (ℕ × Roi) × ℚ)
    (hc : c ∈ sortCandidates cands) :
    ((sortCandidates cands).map fun x => x.2).headD 0 ≤ c.2 := by
  have hs := sortCandidates_sorted cands
  cases hsc : sortCandidates cands with
  | nil =>
    rw [hsc] at hc
    simp at hc
  | cons d ds =>
    rw [hsc] at hc hs
    simp only [List.map_cons, List.headD_cons]
    rcases List.mem_cons.mp hc with rfl | hc
    · exact le_refl _
    · exact (List.pairwise_cons.mp hs).1 c hc

/-- Constant 2 by 2 patch used in the concrete pairing scenarios. -/
def cMat : Mat := ⟨2, 2, fun _ _ => (0, 0, 0, 255)⟩

/-- Histogram comparison primitive reporting perfect correlation for every pair. -/
def chOne : ℕ → ℕ → ℚ := fun _ _ => 1

/-- Tile of size 40 by 40 carrying the constant patch. -/
def bigRoi : Roi := ⟨0, ⟨0, 0, 40, 40⟩, cMat, 0, (20, 20)⟩

/-- Tile of size 80 by 80 carrying the same constant patch. -/
def hugeRoi : Roi := ⟨1, ⟨100, 0, 80, 80⟩, cMat, 0, (140, 40)⟩

/-- C4 counterexample: identical descriptors — equal patches (zonal difference
zero) and histogram correlation one — do not suffice to pass all three acceptance
gates, because the size gate compares tile rectangle areas, which are not part of
the descriptor: a 40 by 40 tile against an 80 by 80 tile fails the gate. -/
theorem identical_descriptors_gate_fail :
    getZonalScore bigRoi.mat hugeRoi.mat = 0 ∧ chOne bigRoi.hist hugeRoi.hist = 1 ∧
      gatePass chOne bigRoi hugeRoi = false := by
  refine ⟨?_, rfl, ?_⟩ <;> decide

/-- C4 amended: the composite score equals zonalDiff + (1 - histCorrelation) * 5000
for every pair; tiles with identical descriptors (equal patches, correlation one)
and equal areas pass all three gates with composite score exactly zero; and in a
sorted candidate list every zero-score entry precedes every positive-score
entry. -/
theorem identical_descriptors_score :
    (∀ (compareHist : ℕ → ℕ → ℚ) (a b : Roi),
        totalScore compareHist a b =
          (getZonalScore a.mat b.mat : ℚ) + (1 - compareHist a.hist b.hist) * 5000) ∧
    (∀ (compareHist : ℕ → ℕ → ℚ) (a b : Roi), a.mat = b.mat →
        compareHist a.hist b.hist = 1 →
        a.rect.width * a.rect.height = b.rect.width * b.rect.height →
        gatePass compareHist a b = true ∧ totalScore compareHist a b = 0) ∧
    (∀ (cands : List ((ℕ × Roi) × ℚ)) (i j : ℕ) (hi : i < (sortCandidates cands).length)
        (hj : j < (sortCandidates cands).length),
        ((sortCandidates cands).get ⟨i, hi⟩).2 = 0 →
        0 < ((sortCandidates cands).get ⟨j, hj⟩).2 → i < j) := by
  refine ⟨fun _ _ _ => rfl, ?_, ?_⟩
  · intro compareHist a b hmat hhist harea
    constructor
    · simp only [gatePass, Bool.and_eq_true, decide_eq_true_eq]
      refine ⟨⟨?_, ?_⟩, ?_⟩
      · rw [hmat, getZonalScore_self]
        norm_num
      · rw [hhist]
        norm_num
      · rw [sizeDiff, harea]
        simp [jsAbs]
    · rw [totalScore, hmat, getZonalScore_self, hhist]
      norm_num
  · intro cands i j hi hj h0 hpos
    by_contra hij
    push_neg at hij
    rcases lt_or_eq_of_le hij with hlt | heq
    · have hle := List.pairwise_iff_get.mp (sortCandidates_sorted cands) ⟨j, hj⟩ ⟨i, hi⟩
        (Fin.mk_lt_mk.mpr hlt)
      rw [h0] at hle
      exact absurd (lt_of_lt_of_le hpos hle) (lt_irrefl 0)
    · subst heq
      have heq2 : ((sortCandidates cands).get ⟨j, hj⟩).2 = 0 := h0
      rw [heq2] at hpos
      exact absurd hpos (lt_irrefl 0)

/-- Witness: a tile set against itself passes the gate with composite score zero. -/
theorem identical_descriptors_score_witness :
    gatePass chOne bigRoi bigRoi = true ∧ totalScore chOne bigRoi bigRoi = 0 :=
  identical_descriptors_score.2.1 chOne bigRoi bigRoi rfl rfl rfl

/-- Histogram primitive for the concrete tie scenario: full correlation for equal
tokens, none otherwise. -/
def exHist : ℕ → ℕ → ℚ := fun a b => if a == b then 1 else 0

/-- Anchor tile rectangle of the tie scenario. -/
def exT0 : Rect := ⟨80, 80, 40, 40⟩

/-- Boxed-in tile rectangle: descriptor-identical to the anchor but surrounded by
four wall rectangles, so no orthogonal path reaches it. -/
def exT1 : Rect := ⟨500, 500, 40, 40⟩

/-- Reachable tile rectangle on the row of the anchor. -/
def exT2 : Rect := ⟨200, 80, 40, 40⟩

/-- Top wall of the box around exT1. -/
def exW1 : Rect := ⟨450, 450, 140, 10⟩

/-- Bottom wall of the box around exT1. -/
def exW2 : Rect := ⟨450, 590, 140, 10⟩

/-- Left wall of the box around exT1. -/
def exW3 : Rect := ⟨450, 460, 10, 130⟩

/-- Right wall of the box around exT1. -/
def exW4 : Rect := ⟨580, 460, 10, 130⟩

/-- Tile rectangles of the tie scenario, in scan order. -/
def exTiles : List Rect := [exT0, exT1, exT2, exW1, exW2, exW3, exW4]

/-- Rois of the tie scenario; tiles 0, 1 and 2 share histogram token 7 and the
constant patch, the walls carry distinct tokens so the gate excludes them. -/
def exRoi0 : Roi := ⟨0, exT0, cMat, 7, (100, 100)⟩

/-- Roi of the boxed-in tile. -/
def exRoi1 : Roi := ⟨1, exT1, cMat, 7, (520, 520)⟩

/-- Roi of the reachable tile. -/
def exRoi2 : Roi := ⟨2, exT2, cMat, 7, (220, 100)⟩

/-- Roi of the top wall. -/
def exRoiW1 : Roi := ⟨3, exW1, cMat, 11, (520, 455)⟩

/-- Roi of the bottom wall. -/
def exRoiW2 : Roi := ⟨4, exW2, cMat, 12, (520, 595)⟩

/-- Roi of the left wall. -/
def exRoiW3 : Roi := ⟨5, exW3, cMat, 13, (455, 525)⟩

/-- Roi of the right wall. -/
def exRoiW4 : Roi := ⟨6, exW4, cMat, 14, (585, 525)⟩

/-- Roi list of the tie scenario. -/
def exRois : List Roi := [exRoi0, exRoi1, exRoi2, exRoiW1, exRoiW2, exRoiW3, exRoiW4]

/-- C10 counterexample: in this concrete run the best-scoring gated
candidate is position one (first in the sorted candidate list), connectivity
rejects it and position two is accepted instead; yet the stored score (the top
score of the top candidate, zero) equals the composite score of the accepted pair, because the scores of the two
candidates tie — so a pair whose accepted partner is not the top-scoring
candidate need not store a score different from that of the actual pair. -/
theorem stored_score_tie_counterexample :
    ((processPairs 1000 1000 exHist exTiles exRois).map
        fun p => (p.p1.1, p.p2.1, p.score)) = [(0, 2, 0)] ∧
      ((sortCandidates (candidatesFor exHist exRoi0 exRois.enum.tail ∅)).map
        fun c => (c.1.1, c.2)) = [(1, 0), (2, 0)] ∧
      connOK 1000 1000 exTiles (0, exRoi0) (1, exRoi1) = false ∧
      totalScore exHist exRoi0 exRoi2 = 0 := by
  refine ⟨?_, ?_, ?_, ?_⟩ <;> decide

theorem pairAux_score_le (w h : ℚ) (compareHist : ℕ → ℕ → ℚ) (tiles : List Rect) :
    ∀ (l : List (ℕ × Roi)) (visited : Finset ℕ),
      ∀ p ∈ pairAux w h compareHist tiles l visited,
        p.score ≤ totalScore compareHist p.p1.2 p.p2.2 := by
  intro l
  induction l with
  | nil =>
    intro visited p hp
    simp [pairAux] at hp
  | cons ia rest ih =>
    intro visited p hp
    by_cases hv : ia.1 ∈ visited
    · rw [pairAux, if_pos hv] at hp
      exact ih visited p hp
    · simp only [pairAux, if_neg hv] at hp
      cases hfc : findConn w h tiles ia
          (sortCandidates (candidatesFor compareHist ia.2 rest visited)) with
      | none =>
        rw [hfc] at hp
        exact ih visited p hp
      | some jb =>
        rw [hfc] at hp
        rcases List.mem_cons.mp hp with rfl | hp
        · obtain ⟨s, hsmem⟩ := findConn_mem w h tiles ia _ jb hfc
          obtain ⟨_, _, hscore⟩ := mem_candidatesFor compareHist ia.2 rest visited (jb, s)
            ((mem_sortCandidates _ _).mp hsmem)
          have hle := sortCandidates_headD_le (candidatesFor compareHist ia.2 rest visited)
            (jb, s) hsmem
          exact le_trans hle (le_of_eq hscore)
        · exact ih (insert ia.1 (insert jb.1 visited)) p hp

/-- C10 amended: the stored score of every accepted pair is the composite score of
the top-scoring gated candidate, hence at most the composite score of the two tiles
actually paired; it differs exactly when the composite score of the accepted partner
strictly exceeds that of the best candidate, and coincides when the scores tie. -/
theorem stored_score_le_actual (w h : ℚ) (compareHist : ℕ → ℕ → ℚ) (tiles : List Rect)
    (rois : List Roi) (i : ℕ)
    (hi : i < (processPairs w h compareHist tiles rois).length) :
    ((processPairs w h compareHist tiles rois).get ⟨i, hi⟩).score ≤
      totalScore compareHist
        ((processPairs w h compareHist tiles rois).get ⟨i, hi⟩).p1.2
        ((processPairs w h compareHist tiles rois).get ⟨i, hi⟩).p2.2 :=
  pairAux_score_le w h compareHist tiles rois.enum ∅ _ (List.get_mem _ _ _)

/-- Witness: the stored score of the pair produced in the tie scenario is bounded
by the composite score of the accepted pair. -/
theorem stored_score_le_actual_witness :
    ((processPairs 1000 1000 exHist exTiles exRois).get ⟨0, by decide⟩).score ≤
      totalScore exHist
        ((processPairs 1000 1000 exHist exTiles exRois).get ⟨0, by decide⟩).p1.2
        ((processPairs 1000 1000 exHist exTiles exRois).get ⟨0, by decide⟩).p2.2 :=
  stored_score_le_actual 1000 1000 exHist exTiles exRois 0 (by decide)

end TileMatch
